import Mathlib

/-!
Verification of the Finch license issuer (`scripts/issue_license.py`).

The script signs a compact JSON payload with an Ed25519 private key and
emits a token `FINCH-<base64url(payload)>.<base64url(signature)>`.

This development shallowly embeds the script:
* bytes are `Nat` values below 256, byte strings are `List Nat`;
* `base64.urlsafe_b64encode(...).rstrip(b"=")` becomes `b64urlEncode`;
* `str.encode()` (UTF-8) becomes `utf8Encode`;
* `json.dumps(..., separators=(",", ":"))` with its default
  `ensure_ascii=True` escaping becomes `json_dumps`;
* `datetime.date` arithmetic becomes ordinal (proleptic-Gregorian day
  number) arithmetic, bounded by Python's `date.max.toordinal()`,
  and `date.isoformat` becomes `isoformatOfOrdinal`;
* the Ed25519 primitive of the external `cryptography` package is an
  abstract deterministic signature scheme (`SigScheme`);
* the CLI driver `main` becomes a pure function from parsed arguments
  and an environment (filesystem, secret-store outcome, clock) to an
  exit code plus captured standard output and standard error.

Decoding functions (`b64urlDecodeChars`, `utf8DecodeChars`,
`parseJsonObjChars`, `decode_payload`) model the relying-party side
described by the spec ("base64url-decoding the token's first segment,
parsed as JSON"); they follow the spec's words, restricted to the
compact grammar the issuer emits.
-/

set_option maxHeartbeats 1600000

namespace Finch

/-! ## base64url (Python `base64.urlsafe_b64encode`, unpadded) -/

/-- Alphabet of URL-safe base64, as used by `base64.urlsafe_b64encode`. -/
def b64Alphabet : List Char :=
  "ABCDEFGHIJKLMNOPQRSTUVWXYZabcdefghijklmnopqrstuvwxyz0123456789-_".data

/-- Character for a six-bit value. -/
def b64Char (n : Nat) : Char := b64Alphabet.getD n 'A'

/-- Unpadded URL-safe base64 of a byte string, as a character list.
Models `base64.urlsafe_b64encode(data).rstrip(b"=")`. -/
def b64urlEncodeChars : List Nat → List Char
  | [] => []
  | [a] => [b64Char (a / 4), b64Char (a % 4 * 16)]
  | [a, b] => [b64Char (a / 4), b64Char (a % 4 * 16 + b / 16), b64Char (b % 16 * 4)]
  | a :: b :: c :: rest =>
      b64Char (a / 4) :: b64Char (a % 4 * 16 + b / 16) ::
        b64Char (b % 16 * 4 + c / 64) :: b64Char (c % 64) :: b64urlEncodeChars rest

/-- Unpadded URL-safe base64 of a byte string. -/
def b64urlEncode (bs : List Nat) : String := String.mk (b64urlEncodeChars bs)

/-- Value of a base64url character. -/
def b64Val (c : Char) : Option Nat :=
  if 'A' ≤ c ∧ c ≤ 'Z' then some (c.toNat - 65)
  else if 'a' ≤ c ∧ c ≤ 'z' then some (c.toNat - 97 + 26)
  else if '0' ≤ c ∧ c ≤ '9' then some (c.toNat - 48 + 52)
  else if c = '-' then some 62
  else if c = '_' then some 63
  else none

/-- Decoder for unpadded URL-safe base64 (relying-party side, from the
spec's words: re-padding then `base64.urlsafe_b64decode`). -/
def b64urlDecodeChars : List Char → Option (List Nat)
  | [] => some []
  | [_] => none
  | [c1, c2] =>
    match b64Val c1, b64Val c2 with
    | some v1, some v2 => some [v1 * 4 + v2 / 16]
    | _, _ => none
  | [c1, c2, c3] =>
    match b64Val c1, b64Val c2, b64Val c3 with
    | some v1, some v2, some v3 => some [v1 * 4 + v2 / 16, v2 % 16 * 16 + v3 / 4]
    | _, _, _ => none
  | c1 :: c2 :: c3 :: c4 :: rest =>
    match b64Val c1, b64Val c2, b64Val c3, b64Val c4, b64urlDecodeChars rest with
    | some v1, some v2, some v3, some v4, some bs =>
        some ((v1 * 4 + v2 / 16) :: (v2 % 16 * 16 + v3 / 4) :: (v3 % 4 * 64 + v4) :: bs)
    | _, _, _, _, _ => none

/-! ## UTF-8 (Python `str.encode()` / `bytes.decode()`) -/

/-- UTF-8 encoding of one unicode scalar value. -/
def utf8EncodeChar (c : Char) : List Nat :=
  let v := c.toNat
  if v < 0x80 then [v]
  else if v < 0x800 then [0xC0 + v / 64, 0x80 + v % 64]
  else if v < 0x10000 then [0xE0 + v / 4096, 0x80 + v / 64 % 64, 0x80 + v % 64]
  else [0xF0 + v / 262144, 0x80 + v / 4096 % 64, 0x80 + v / 64 % 64, 0x80 + v % 64]

/-- UTF-8 encoding of a string, the model of Python `str.encode()`. -/
def utf8Encode (s : String) : List Nat := s.data.flatMap utf8EncodeChar

/-- Construct a `Char` from a scalar value, refusing invalid ones. -/
def mkChar? (v : Nat) : Option Char :=
  if v.isValidChar then some (Char.ofNat v) else none

/-- Continuation-byte test. -/
def isCont (b : Nat) : Bool := 0x80 ≤ b ∧ b < 0xC0

/-- Decode one UTF-8 scalar value from the front of a byte string
(relying-party side). -/
def utf8DecodeOne : List Nat → Option (Char × List Nat)
  | [] => none
  | b :: rest =>
    if b < 0x80 then (mkChar? b).map fun c => (c, rest)
    else if b < 0xC0 then none
    else if b < 0xE0 then
      match rest with
      | b2 :: rest2 =>
        if isCont b2 then
          (mkChar? ((b - 0xC0) * 64 + (b2 - 0x80))).map fun c => (c, rest2)
        else none
      | [] => none
    else if b < 0xF0 then
      match rest with
      | b2 :: b3 :: rest3 =>
        if isCont b2 ∧ isCont b3 then
          (mkChar? (((b - 0xE0) * 64 + (b2 - 0x80)) * 64 + (b3 - 0x80))).map fun c => (c, rest3)
        else none
      | _ => none
    else if b < 0xF8 then
      match rest with
      | b2 :: b3 :: b4 :: rest4 =>
        if isCont b2 ∧ isCont b3 ∧ isCont b4 then
          (mkChar? ((((b - 0xF0) * 64 + (b2 - 0x80)) * 64 + (b3 - 0x80)) * 64 + (b4 - 0x80))).map
            fun c => (c, rest4)
        else none
      | _ => none
    else none

/-- Fueled decoding loop; each step consumes at least one byte, so any
fuel at least the length of the input suffices. -/
def utf8DecodeLoop : Nat → List Nat → Option (List Char)
  | 0, bs => if bs = [] then some [] else none
  | fuel + 1, bs =>
    if bs = [] then some []
    else
      match utf8DecodeOne bs with
      | some cr => (utf8DecodeLoop fuel cr.2).map fun l => cr.1 :: l
      | none => none

/-- UTF-8 decoding of a whole byte string (relying-party side). -/
def utf8DecodeChars (bs : List Nat) : Option (List Char) := utf8DecodeLoop bs.length bs

/-! ## JSON serialization (Python `json.dumps(..., separators=(",", ":"))`,
default `ensure_ascii=True`) -/

/-- Lowercase hexadecimal digit, as `"%04x" % v` produces. -/
def hexDigit (n : Nat) : Char :=
  if n < 10 then Char.ofNat (48 + n) else Char.ofNat (87 + n)

/-- Four lowercase hexadecimal digits of a value below `0x10000`. -/
def hex4 (v : Nat) : List Char :=
  [hexDigit (v / 4096 % 16), hexDigit (v / 256 % 16), hexDigit (v / 16 % 16), hexDigit (v % 16)]

/-- Escape of one character in a JSON string literal, mirroring CPython's
`py_encode_basestring_ascii`: two-character escapes for `"` `\` and the
five control shorthands, `\uXXXX` for other characters outside
`0x20..0x7E` (surrogate pairs above `0xFFFF`), the character itself
otherwise. -/
def jsonEscapeChar (c : Char) : List Char :=
  if c = '"' then ['\\', '"']
  else if c = '\\' then ['\\', '\\']
  else if c = '\x08' then ['\\', 'b']
  else if c = '\x0c' then ['\\', 'f']
  else if c = '\n' then ['\\', 'n']
  else if c = '\r' then ['\\', 'r']
  else if c = '\t' then ['\\', 't']
  else if 0x20 ≤ c.toNat ∧ c.toNat ≤ 0x7E then [c]
  else if c.toNat < 0x10000 then '\\' :: 'u' :: hex4 c.toNat
  else
    ('\\' :: 'u' :: hex4 (0xD800 + (c.toNat - 0x10000) / 1024)) ++
      ('\\' :: 'u' :: hex4 (0xDC00 + (c.toNat - 0x10000) % 1024))

/-- JSON string literal for a character list: quote, escaped characters, quote. -/
def jsonQuoteChars (l : List Char) : List Char :=
  '"' :: (l.flatMap jsonEscapeChar ++ ['"'])

/-- JSON string literal for a string. -/
def jsonQuote (s : String) : String := String.mk (jsonQuoteChars s.data)

/-- Members of a JSON object with string values, joined by `","`,
each member `key ++ ":" ++ value` (the `separators=(",", ":")` form). -/
def jsonMembersChars : List (List Char × List Char) → List Char
  | [] => []
  | [kv] => jsonQuoteChars kv.1 ++ (':' :: jsonQuoteChars kv.2)
  | kv :: rest =>
      jsonQuoteChars kv.1 ++ (':' :: (jsonQuoteChars kv.2 ++ (',' :: jsonMembersChars rest)))

/-- Compact JSON object text for an ordered list of string fields. -/
def json_dumpsChars (kvs : List (List Char × List Char)) : List Char :=
  '\x7b' :: (jsonMembersChars kvs ++ ['\x7d'])

/-- Model of `json.dumps(dict, separators=(",", ":"))` for a dict of
strings, in insertion order. -/
def json_dumps (kvs : List (String × String)) : String :=
  String.mk (json_dumpsChars (kvs.map fun kv => (kv.1.data, kv.2.data)))

/-! ## Dates (Python `datetime.date`) -/

/-- Largest ordinal handled by `datetime.date`, `date.max.toordinal()`. -/
def maxOrdinal : Nat := 3652059

/-- Leap-year test, CPython `_is_leap`. -/
def isLeap (y : Nat) : Bool := y % 4 = 0 ∧ (y % 100 ≠ 0 ∨ y % 400 = 0)

/-- Days in the year before the first of each month (index 1-12,
non-leap), CPython `_DAYS_BEFORE_MONTH`. -/
def daysBeforeMonth (m : Nat) : Nat :=
  [0, 0, 31, 59, 90, 120, 151, 181, 212, 243, 273, 304, 334].getD m 0

/-- Days in each month (index 1-12, non-leap), CPython `_DAYS_IN_MONTH`. -/
def daysInMonthTable (m : Nat) : Nat :=
  [0, 31, 28, 31, 30, 31, 30, 31, 31, 30, 31, 30, 31].getD m 0

/-- Ordinal to (year, month, day), CPython `_ord2ymd`. -/
def ord2ymd (ord : Nat) : Nat × Nat × Nat :=
  let n := ord - 1
  let n400 := n / 146097
  let r1 := n % 146097
  let n100 := r1 / 36524
  let r2 := r1 % 36524
  let n4 := r2 / 1461
  let r3 := r2 % 1461
  let n1 := r3 / 365
  let n' := r3 % 365
  let year := n400 * 400 + n100 * 100 + n4 * 4 + n1 + 1
  if n1 = 4 ∨ n100 = 4 then (year - 1, 12, 31)
  else
    let leap : Bool := n1 = 3 ∧ (n4 ≠ 24 ∨ n100 = 3)
    let month := (n' + 50) / 32
    let preceding := daysBeforeMonth month + (if month > 2 ∧ leap then 1 else 0)
    if preceding > n' then
      let month' := month - 1
      let prec' := preceding - (daysInMonthTable month' + (if month' = 2 ∧ leap then 1 else 0))
      (year, month', n' - prec' + 1)
    else
      (year, month, n' - preceding + 1)

/-- Decimal digit character. -/
def digitChar (n : Nat) : Char := Char.ofNat (48 + n % 10)

/-- Four-digit zero-padded decimal, `"%04d"` for values up to 9999. -/
def pad4 (n : Nat) : List Char :=
  [digitChar (n / 1000), digitChar (n / 100), digitChar (n / 10), digitChar n]

/-- Two-digit zero-padded decimal, `"%02d"` for values up to 99. -/
def pad2 (n : Nat) : List Char := [digitChar (n / 10), digitChar n]

/-- Characters of `date.fromordinal(ord).isoformat()`. -/
def isoformatChars (ord : Nat) : List Char :=
  let ymd := ord2ymd ord
  pad4 ymd.1 ++ ('-' :: (pad2 ymd.2.1 ++ ('-' :: pad2 ymd.2.2)))

/-- Model of `date.fromordinal(ord).isoformat()`. -/
def isoformatOfOrdinal (ord : Nat) : String := String.mk (isoformatChars ord)

/-! ## JSON parsing (relying-party side, from the spec's words:
"parsed as JSON", restricted to the compact object-of-strings grammar
the issuer emits; like `json.loads` it rejects raw control characters
inside string literals and recombines `\uXXXX` surrogate pairs) -/

/-- Value of one hexadecimal digit, either case. -/
def parseHexDigitVal (c : Char) : Option Nat :=
  if '0' ≤ c ∧ c ≤ '9' then some (c.toNat - 48)
  else if 'a' ≤ c ∧ c ≤ 'f' then some (c.toNat - 87)
  else if 'A' ≤ c ∧ c ≤ 'F' then some (c.toNat - 55)
  else none

/-- Parse four hexadecimal digits into their value. -/
def parseHex4 : List Char → Option (Nat × List Char)
  | h1 :: h2 :: h3 :: h4 :: rest =>
    match parseHexDigitVal h1, parseHexDigitVal h2, parseHexDigitVal h3, parseHexDigitVal h4 with
    | some v1, some v2, some v3, some v4 => some (((v1 * 16 + v2) * 16 + v3) * 16 + v4, rest)
    | _, _, _, _ => none
  | _ => none

/-- Parse the remainder of a `\uXXXX` escape (input begins after the
`\u`): a lone scalar value, or a high surrogate that must be followed
by a `\uXXXX` low surrogate, combined as `json.loads` does. -/
def parseUEscape (cs : List Char) : Option (Option Char × List Char) :=
  match parseHex4 cs with
  | some (v, rest) =>
    if 0xD800 ≤ v ∧ v < 0xDC00 then
      match rest with
      | e2 :: u2 :: rest2 =>
        if e2 = '\\' ∧ u2 = 'u' then
          match parseHex4 rest2 with
          | some (w, rest3) =>
            if 0xDC00 ≤ w ∧ w < 0xE000 then
              (mkChar? (0x10000 + (v - 0xD800) * 1024 + (w - 0xDC00))).map
                fun ch => (some ch, rest3)
            else none
          | none => none
        else none
      | _ => none
    else (mkChar? v).map fun ch => (some ch, rest)
  | none => none

/-- One step inside a JSON string literal (the opening quote already
consumed): `some (none, rest)` when the closing quote is reached,
`some (some c, rest)` when one character (a literal, a two-character
escape, a `\uXXXX` escape, or a surrogate pair) is decoded. Raw
control characters are rejected, as `json.loads` does. -/
def parseStrStep : List Char → Option (Option Char × List Char)
  | [] => none
  | c :: rest =>
    if c = '"' then some (none, rest)
    else if c = '\\' then
      match rest with
      | [] => none
      | e :: rest2 =>
        if e = '"' then some (some '"', rest2)
        else if e = '\\' then some (some '\\', rest2)
        else if e = '/' then some (some '/', rest2)
        else if e = 'b' then some (some '\x08', rest2)
        else if e = 'f' then some (some '\x0c', rest2)
        else if e = 'n' then some (some '\n', rest2)
        else if e = 'r' then some (some '\r', rest2)
        else if e = 't' then some (some '\t', rest2)
        else if e = 'u' then parseUEscape rest2
        else none
    else if c.toNat < 0x20 then none
    else some (some c, rest)

/-- Fueled loop running `parseStrStep` until the closing quote; each
step consumes at least one character. -/
def parseStrLoop : Nat → List Char → Option (List Char × List Char)
  | 0, _ => none
  | fuel + 1, cs =>
    match parseStrStep cs with
    | some (none, rest) => some ([], rest)
    | some (some c, rest) => (parseStrLoop fuel rest).map fun pr => (c :: pr.1, pr.2)
    | none => none

/-- Parse the body of a JSON string literal (the opening quote already
consumed): the decoded characters and the input after the closing
quote. -/
def parseStrChars (cs : List Char) : Option (List Char × List Char) :=
  parseStrLoop cs.length cs

/-- Parse one `"key":"value"` member followed by its terminator: the
pair, a flag that is true when a comma (more members) rather than the
closing brace followed, and the remaining input. -/
def parseMember (cs : List Char) : Option ((List Char × List Char) × (Bool × List Char)) :=
  match cs with
  | [] => none
  | c :: cs1 =>
    if c = '"' then
      match parseStrChars cs1 with
      | some (k, r1) =>
        match r1 with
        | [] => none
        | c2 :: r2 =>
          if c2 = ':' then
            match r2 with
            | [] => none
            | c3 :: r3 =>
              if c3 = '"' then
                match parseStrChars r3 with
                | some (v, r4) =>
                  match r4 with
                  | [] => none
                  | c4 :: r5 =>
                    if c4 = ',' then some ((k, v), (true, r5))
                    else if c4 = '\x7d' then some ((k, v), (false, r5))
                    else none
                | none => none
              else none
          else none
      | none => none
    else none

/-- Parse the members of a JSON object of strings, after the opening
brace: a comma-separated sequence of `"key":"value"` pairs followed by
the closing brace. Fuel bounds the recursion; any fuel at least the
number of members suffices. -/
def parseMembers : Nat → List Char → Option (List (List Char × List Char) × List Char)
  | 0, _ => none
  | fuel + 1, cs =>
    match parseMember cs with
    | some (kv, (true, rest)) => (parseMembers fuel rest).map fun pr => (kv :: pr.1, pr.2)
    | some (kv, (false, rest)) => some ([kv], rest)
    | none => none

/-- Parse a whole compact JSON object of string fields; the entire
input must be consumed. -/
def parseJsonObjChars (cs : List Char) : Option (List (String × String)) :=
  match cs with
  | [] => none
  | c :: rest =>
    if c = '\x7b' then
      match rest with
      | [] => none
      | c2 :: rest2 =>
        if c2 = '\x7d' then (if rest2 = [] then some [] else none)
        else
          match parseMembers rest.length rest with
          | some (kvs, r) =>
            if r = [] then some (kvs.map fun kv => (String.mk kv.1, String.mk kv.2)) else none
          | none => none
    else none

/-! ## The Signer (external collaborator) -/

/-- Modelled from the spec: the Signer, the Ed25519 primitive of the
external `cryptography` package (not code of this repository). `loadKey`
models `load_pem_private_key`, returning the raised exception's text on
failure; `sign` the deterministic signing operation producing raw
signature bytes; `verify` Ed25519 verification against the
corresponding public key. -/
structure SigScheme (SK PK : Type) where
  loadKey : List Nat → Except String SK
  pub : SK → PK
  sign : SK → List Nat → List Nat
  verify : PK → List Nat → List Nat → Bool

/-- Spec contract for the Signer: signatures it produces verify. -/
def SigScheme.Correct {SK PK : Type} (S : SigScheme SK PK) : Prop :=
  ∀ sk m, S.verify (S.pub sk) (S.sign sk m) m = true

/-- Spec contract for the Signer: for a fixed key and message the only
accepted signature bytes are the ones signing produces (Ed25519 with
strict verification, as the `cryptography` package implements). -/
def SigScheme.StrictVerify {SK PK : Type} (S : SigScheme SK PK) : Prop :=
  ∀ sk m sg, S.verify (S.pub sk) sg m = true → sg = S.sign sk m

/-- Spec contract for the Signer: under one key, distinct messages get
distinct signatures. -/
def SigScheme.SignInjective {SK PK : Type} (S : SigScheme SK PK) : Prop :=
  ∀ sk m m', S.sign sk m = S.sign sk m' → m = m'

/-! ## The issuer (`issue_key`) -/

/-- Expiry ordinal, `date.today() + timedelta(days=365 * years)` as an
integer day number (before Python's range check). -/
def expOrdinal (todayOrd : Nat) (years : Int) : Int := (todayOrd : Int) + 365 * years

/-- Characters of the serialized License Claim:
`json.dumps({"sub": email, "name": name, "tier": "commercial",
"iss": today.isoformat(), "exp": expiry.isoformat()},
separators=(",", ":"))`. -/
def payloadChars (email name : String) (issOrd expOrd : Nat) : List Char :=
  json_dumpsChars [("sub".data, email.data), ("name".data, name.data),
    ("tier".data, "commercial".data), ("iss".data, isoformatChars issOrd),
    ("exp".data, isoformatChars expOrd)]

/-- The payload bytes that are signed and embedded: UTF-8 of the
serialized License Claim. -/
def payloadBytes (email name : String) (issOrd expOrd : Nat) : List Nat :=
  utf8Encode (String.mk (payloadChars email name issOrd expOrd))

/-- Model of `issue_key(email, name, years, private_key_pem)`: parse
the PEM key, compute `iss` and `exp`, serialize, sign, and assemble
`FINCH-<b64url(payload)>.<b64url(signature)>`. Failures surface as
`Except.error` with the exception text: a bad key via `loadKey`, and
out-of-range date arithmetic via
`OverflowError("date value out of range")` from
`today + timedelta(days=365 * years)` (for astronomically large
`|years|` the `timedelta` constructor itself overflows first with a
different message text; the success/failure boundary is identical).
`main` reports every exception escaping this function the same way. -/
def issue_key {SK PK : Type} (S : SigScheme SK PK) (email name : String)
    (years : Int) (private_key_pem : List Nat) (todayOrd : Nat) :
    Except String String :=
  match S.loadKey private_key_pem with
  | .error e => .error e
  | .ok sk =>
    let expI := expOrdinal todayOrd years
    if 1 ≤ expI ∧ expI ≤ (maxOrdinal : Int) then
      let payload := payloadBytes email name todayOrd expI.toNat
      let signature := S.sign sk payload
      .ok ("FINCH-" ++ b64urlEncode payload ++ "." ++ b64urlEncode signature)
    else .error "date value out of range"

/-! ## Key sources -/

/-- Python whitespace test for `str.strip()` (ASCII part). -/
def isPyWhitespace (c : Char) : Bool :=
  c = ' ' ∨ c = '\t' ∨ c = '\n' ∨ c = '\r' ∨ c = '\x0b' ∨ c = '\x0c'

/-- Model of `str.strip()`. -/
def pyStrip (s : String) : String :=
  String.mk (((s.data.dropWhile isPyWhitespace).reverse.dropWhile isPyWhitespace).reverse)

/-- Outcome of the `subprocess.run(["op", ...])` call. -/
inductive OpOutcome where
  | ran (stdoutText : String)
  | toolMissing
  | failed (stderrText : String)

/-- Model of `load_private_key_from_1password()`: strip the tool's
standard output and reject empty results; surface a missing executable
and a failing tool as `RuntimeError` messages. -/
def load_private_key_from_1password (op : OpOutcome) : Except String (List Nat) :=
  match op with
  | .ran out =>
    let pem := pyStrip out
    if pem = "" then .error "op returned empty output"
    else .ok (utf8Encode pem)
  | .toolMissing =>
    .error ("1Password CLI (op) not found. Install with: brew install 1password-cli\n" ++
      "Or use --key ~/.finch/license_private.pem")
  | .failed st =>
    .error ("op failed (are you signed in? run: op signin):\n" ++ pyStrip st)

/-- Model of `os.path.expanduser` for the leading-tilde forms the
script's interface documents (a bare `~` or `~/...`; the `~user` form
would consult the password database and is left unchanged here). -/
def expanduser (home path : String) : String :=
  match path.data with
  | ['~'] => home
  | '~' :: '/' :: rest => home ++ String.mk ('/' :: rest)
  | _ => path

/-- Model of `load_private_key_from_file(path)`: expand the user home,
fail with `Key file not found: <path>` when the path does not exist,
otherwise read the file's bytes. The filesystem is a map from paths to
contents. -/
def load_private_key_from_file (fs : String → Option (List Nat)) (home path : String) :
    Except String (List Nat) :=
  let p := expanduser home path
  match fs p with
  | some contents => .ok contents
  | none => .error ("Key file not found: " ++ p)

/-! ## The CLI driver (`main`) -/

/-- Arguments after `argparse` has accepted them: two positionals and
the typed options (`--years` is `type=int` with default 1, `--key`
defaults to `None`). -/
structure Args where
  email : String
  name : String
  years : Int
  key : Option String

/-- Ambient state of one run: the Signer, the filesystem, the user
home, the outcome the `op` subprocess would have, whether the
`cryptography` package imports, and the current date. -/
structure Env (SK PK : Type) where
  scheme : SigScheme SK PK
  fs : String → Option (List Nat)
  home : String
  op : OpOutcome
  cryptoAvailable : Bool
  todayOrd : Nat

/-- Observable result of a run: exit status, lines printed to standard
output, lines printed to standard error. -/
structure RunResult where
  exitCode : Nat
  stdout : List String
  stderr : List String
deriving DecidableEq

/-- Key-source selection in `main`: the source's `if args.key:` tests
Python truthiness, so only a non-empty `--key` path picks the file
loader; `--key ""` (empty string, falsy) and an absent `--key` both
select 1Password. -/
def keySource {SK PK : Type} (env : Env SK PK) (args : Args) : Except String (List Nat) :=
  match args.key with
  | some p =>
    if p = "" then load_private_key_from_1password env.op
    else load_private_key_from_file env.fs env.home p
  | none => load_private_key_from_1password env.op

/-- Model of `main()` after argument parsing: load the key (printing
`error: <RuntimeError>` and exiting 1 on failure), handle a missing
`cryptography` package, invoke `issue_key` (reporting any exception as
`error: failed to sign key: <cause>`), and on success print the token
to standard output and the metadata lines to standard error. -/
def main {SK PK : Type} (env : Env SK PK) (args : Args) : RunResult :=
  match keySource env args with
  | .error e => ⟨1, [], ["error: " ++ e]⟩
  | .ok pem =>
    if env.cryptoAvailable then
      match issue_key env.scheme args.email args.name args.years pem env.todayOrd with
      | .error e => ⟨1, [], ["error: failed to sign key: " ++ e]⟩
      | .ok key =>
        ⟨0, [key],
          ["\n# Licensee:  " ++ args.name ++ " <" ++ args.email ++ ">",
           "# Expires:   " ++ isoformatOfOrdinal (expOrdinal env.todayOrd args.years).toNat,
           "# Key from:  " ++
             (match args.key with
              | some p => if p = "" then "1Password" else p
              | none => "1Password")]⟩
    else
      ⟨1, [], ["error: cryptography package not installed. Run: pip install cryptography"]⟩

/-! ## Relying-party token decoding (from the spec's words) -/

/-- Decode the payload of a token: require the `FINCH-` prefix, take
the segment up to the `.`, base64url-decode it, decode UTF-8, parse
the JSON object. -/
def decode_payload (t : String) : Option (List (String × String)) :=
  match t.data with
  | 'F' :: 'I' :: 'N' :: 'C' :: 'H' :: '-' :: rest =>
    match b64urlDecodeChars (rest.takeWhile fun c => c ≠ '.') with
    | some bytes =>
      match utf8DecodeChars bytes with
      | some chars => parseJsonObjChars chars
      | none => none
    | none => none
  | _ => none

/-- The five fields of the serialized License Claim, as the decoder
recovers them. -/
def claimFields (email name : String) (issOrd expOrd : Nat) : List (String × String) :=
  [("sub", email), ("name", name), ("tier", "commercial"),
   ("iss", isoformatOfOrdinal issOrd), ("exp", isoformatOfOrdinal expOrd)]

/-! ## A concrete signature scheme meeting the Signer contract, and
concrete environments, used to exhibit concrete runs -/

/-- A toy instance of the Signer contract: keys are byte strings, the
signature is an injective encoding of key and message, and verification
accepts exactly that encoding. -/
def toyScheme : SigScheme (List Nat) (List Nat) where
  loadKey := fun pem => if pem = [] then .error "Unable to load PEM file" else .ok pem
  pub := id
  sign := fun sk m => sk ++ (0 :: m)
  verify := fun pk sg m => sg == pk ++ (0 :: m)

/-- A filesystem holding one key file. -/
def fsA : String → Option (List Nat) :=
  fun p => if p = "/home/u/.finch/key.pem" then some [7] else none

/-- A run reading the key from a file; the date is 2024-01-01
(ordinal 738886). -/
def envA : Env (List Nat) (List Nat) :=
  ⟨toyScheme, fsA, "/home/u", .toolMissing, true, 738886⟩

/-- Arguments pointing at the key file through `~`. -/
def argsA : Args := ⟨"a@b.c", "Jane", 1, some "~/.finch/key.pem"⟩

/-- A run reading the same key bytes from the secret store instead. -/
def envB : Env (List Nat) (List Nat) :=
  ⟨toyScheme, fun _ => none, "/root", .ran "\x07", true, 738886⟩

/-- Arguments with no `--key`, selecting the secret store. -/
def argsB : Args := ⟨"a@b.c", "Jane", 1, none⟩

/-- Arguments with `--key ""`: a supplied but empty path, which
Python's truthiness test routes to the secret store. -/
def argsEmptyKey : Args := ⟨"a@b.c", "Jane", 1, some ""⟩

/-- A run where the secret-store tool is missing and no `--key` was
given. -/
def envFail : Env (List Nat) (List Nat) :=
  ⟨toyScheme, fun _ => none, "/root", .toolMissing, true, 738886⟩

/-- A filesystem holding an empty (hence unloadable) key file. -/
def fsBad : String → Option (List Nat) :=
  fun p => if p = "/home/u/bad.pem" then some [] else none

/-- A run pointing at the unloadable key file. -/
def envBad : Env (List Nat) (List Nat) :=
  ⟨toyScheme, fsBad, "/home/u", .toolMissing, true, 738886⟩

/-- Arguments selecting the unloadable key file. -/
def argsBad : Args := ⟨"a@b.c", "Jane", 1, some "~/bad.pem"⟩

/-! ## Round-trip lemmas: base64url -/

theorem b64Val_b64Char_fin : ∀ v : Fin 64, b64Val (b64Char v.val) = some v.val := by decide

theorem b64Val_b64Char (v : Nat) (h : v < 64) : b64Val (b64Char v) = some v :=
  b64Val_b64Char_fin ⟨v, h⟩

theorem b64url_decode_encode :
    ∀ bs : List Nat, (∀ b ∈ bs, b < 256) →
      b64urlDecodeChars (b64urlEncodeChars bs) = some bs
  | [], _ => rfl
  | [a], h => by
    have ha : a < 256 := h a (by simp)
    simp only [b64urlEncodeChars, b64urlDecodeChars]
    rw [b64Val_b64Char _ (by omega), b64Val_b64Char _ (by omega)]
    simp only [Option.some.injEq, List.cons.injEq, and_true]
    omega
  | [a, b], h => by
    have ha : a < 256 := h a (by simp)
    have hb : b < 256 := h b (by simp)
    simp only [b64urlEncodeChars, b64urlDecodeChars]
    rw [b64Val_b64Char _ (by omega), b64Val_b64Char _ (by omega),
      b64Val_b64Char _ (by omega)]
    simp only [Option.some.injEq, List.cons.injEq, and_true]
    omega
  | a :: b :: c :: rest, h => by
    have ha : a < 256 := h a (by simp)
    have hb : b < 256 := h b (by simp)
    have hc : c < 256 := h c (by simp)
    have ih := b64url_decode_encode rest (fun x hx => h x (by simp [hx]))
    simp only [b64urlEncodeChars, b64urlDecodeChars]
    rw [b64Val_b64Char _ (by omega), b64Val_b64Char _ (by omega),
      b64Val_b64Char _ (by omega), b64Val_b64Char _ (by omega), ih]
    simp only [Option.some.injEq, List.cons.injEq, and_true]
    omega

theorem b64Char_ne_dot (n : Nat) : b64Char n ≠ '.' := by
  rcases Nat.lt_or_ge n 64 with h | h
  · have : ∀ v : Fin 64, b64Char v.val ≠ '.' := by decide
    exact this ⟨n, h⟩
  · unfold b64Char
    rw [List.getD_eq_default]
    · decide
    · have : b64Alphabet.length = 64 := by decide
      omega

theorem b64urlEncodeChars_ne_dot :
    ∀ (bs : List Nat), ∀ c ∈ b64urlEncodeChars bs, c ≠ '.'
  | [], _, hc => by simp [b64urlEncodeChars] at hc
  | [a], _, hc => by
    simp only [b64urlEncodeChars, List.mem_cons, List.mem_singleton,
      List.not_mem_nil, or_false] at hc
    rcases hc with rfl | rfl <;> exact b64Char_ne_dot _
  | [a, b], _, hc => by
    simp only [b64urlEncodeChars, List.mem_cons, List.mem_singleton,
      List.not_mem_nil, or_false] at hc
    rcases hc with rfl | rfl | rfl <;> exact b64Char_ne_dot _
  | a :: b :: c :: rest, x, hc => by
    simp only [b64urlEncodeChars, List.mem_cons] at hc
    rcases hc with rfl | rfl | rfl | rfl | hmem
    · exact b64Char_ne_dot _
    · exact b64Char_ne_dot _
    · exact b64Char_ne_dot _
    · exact b64Char_ne_dot _
    · exact b64urlEncodeChars_ne_dot rest x hmem

/-! ## Round-trip lemmas: UTF-8 -/

theorem mkChar?_toNat (c : Char) : mkChar? c.toNat = some c := by
  have h : c.toNat.isValidChar := c.valid
  unfold mkChar?
  rw [if_pos h]
  simp

theorem char_valid_ranges (c : Char) :
    c.toNat < 0xD800 ∨ (0xDFFF < c.toNat ∧ c.toNat < 0x110000) := c.valid

theorem utf8DecodeOne_encodeChar (c : Char) (bs : List Nat) :
    utf8DecodeOne (utf8EncodeChar c ++ bs) = some (c, bs) := by
  have hv := char_valid_ranges c
  by_cases h1 : c.toNat < 0x80
  · have he : utf8EncodeChar c = [c.toNat] := by simp [utf8EncodeChar, h1]
    rw [he, List.cons_append, List.nil_append]
    unfold utf8DecodeOne
    dsimp only
    rw [if_pos h1, mkChar?_toNat]
    rfl
  · by_cases h2 : c.toNat < 0x800
    · have he : utf8EncodeChar c = [0xC0 + c.toNat / 64, 0x80 + c.toNat % 64] := by
        simp [utf8EncodeChar, h1, h2]
      rw [he, List.cons_append, List.cons_append, List.nil_append]
      unfold utf8DecodeOne
      dsimp only
      rw [if_neg (by omega), if_neg (by omega), if_pos (by omega)]
      have hcont : isCont (0x80 + c.toNat % 64) = true := by simp [isCont]; omega
      rw [hcont]
      simp only [if_pos]
      have hval : (0xC0 + c.toNat / 64 - 0xC0) * 64 + (0x80 + c.toNat % 64 - 0x80) = c.toNat := by
        omega
      rw [hval, mkChar?_toNat]
      rfl
    · by_cases h3 : c.toNat < 0x10000
      · have he : utf8EncodeChar c =
            [0xE0 + c.toNat / 4096, 0x80 + c.toNat / 64 % 64, 0x80 + c.toNat % 64] := by
          simp [utf8EncodeChar, h1, h2, h3]
        rw [he, List.cons_append, List.cons_append, List.cons_append, List.nil_append]
        unfold utf8DecodeOne
        dsimp only
        rw [if_neg (by omega), if_neg (by omega), if_neg (by omega), if_pos (by omega)]
        have hcont : (isCont (0x80 + c.toNat / 64 % 64) ∧ isCont (0x80 + c.toNat % 64)) := by
          constructor <;> (simp [isCont]; omega)
        rw [if_pos (by simpa using hcont)]
        have hval : ((0xE0 + c.toNat / 4096 - 0xE0) * 64 + (0x80 + c.toNat / 64 % 64 - 0x80)) * 64
            + (0x80 + c.toNat % 64 - 0x80) = c.toNat := by omega
        rw [hval, mkChar?_toNat]
        rfl
      · have he : utf8EncodeChar c =
            [0xF0 + c.toNat / 262144, 0x80 + c.toNat / 4096 % 64,
             0x80 + c.toNat / 64 % 64, 0x80 + c.toNat % 64] := by
          simp [utf8EncodeChar, h1, h2, h3]
        rw [he, List.cons_append, List.cons_append, List.cons_append, List.cons_append,
          List.nil_append]
        unfold utf8DecodeOne
        dsimp only
        rw [if_neg (by omega), if_neg (by omega), if_neg (by omega), if_neg (by omega),
          if_pos (by omega)]
        have hcont : (isCont (0x80 + c.toNat / 4096 % 64) ∧ isCont (0x80 + c.toNat / 64 % 64) ∧
            isCont (0x80 + c.toNat % 64)) := by
          refine ⟨?_, ?_, ?_⟩ <;> (simp [isCont]; omega)
        rw [if_pos (by simpa using hcont)]
        have hval : (((0xF0 + c.toNat / 262144 - 0xF0) * 64 + (0x80 + c.toNat / 4096 % 64 - 0x80))
            * 64 + (0x80 + c.toNat / 64 % 64 - 0x80)) * 64
            + (0x80 + c.toNat % 64 - 0x80) = c.toNat := by omega
        rw [hval, mkChar?_toNat]
        rfl

theorem utf8EncodeChar_length_pos (c : Char) : 0 < (utf8EncodeChar c).length := by
  unfold utf8EncodeChar
  dsimp only
  split
  · simp
  · split
    · simp
    · split <;> simp

theorem utf8DecodeLoop_encode (l : List Char) :
    ∀ fuel : Nat, (l.flatMap utf8EncodeChar).length ≤ fuel →
      utf8DecodeLoop fuel (l.flatMap utf8EncodeChar) = some l := by
  induction l with
  | nil =>
    intro fuel _
    cases fuel <;> rfl
  | cons c t ih =>
    intro fuel hfuel
    have hpos := utf8EncodeChar_length_pos c
    rw [List.flatMap_cons] at hfuel ⊢
    rw [List.length_append] at hfuel
    cases fuel with
    | zero => omega
    | succ f =>
      have hne : utf8EncodeChar c ++ t.flatMap utf8EncodeChar ≠ [] := by
        intro hcontra
        have hlen := congrArg List.length hcontra
        rw [List.length_append] at hlen
        simp only [List.length_nil] at hlen
        omega
      have hd : (t.flatMap utf8EncodeChar).length ≤ f := by omega
      rw [utf8DecodeLoop, if_neg hne, utf8DecodeOne_encodeChar]
      dsimp only
      rw [ih f hd]
      rfl

theorem utf8_decode_encode (l : List Char) :
    utf8DecodeChars (l.flatMap utf8EncodeChar) = some l :=
  utf8DecodeLoop_encode l _ (Nat.le_refl _)

/-! ## Round-trip lemmas: JSON strings -/

theorem hexVal_hexDigit_fin : ∀ d : Fin 16, parseHexDigitVal (hexDigit d.val) = some d.val := by
  decide

theorem hexVal_hexDigit (d : Nat) (h : d < 16) : parseHexDigitVal (hexDigit d) = some d :=
  hexVal_hexDigit_fin ⟨d, h⟩

theorem parseStrStep_quote (bs : List Char) : parseStrStep ('"' :: bs) = some (none, bs) := rfl

theorem mkChar?_valid (v : Nat) (h : v.isValidChar) : mkChar? v = some (Char.ofNat v) := by
  unfold mkChar?
  rw [if_pos h]

theorem parseHex4_hex4 (u : Nat) (h : u < 0x10000) (bs : List Char) :
    parseHex4 (hex4 u ++ bs) = some (u, bs) := by
  unfold hex4
  simp only [List.cons_append, List.nil_append]
  unfold parseHex4
  dsimp only
  rw [hexVal_hexDigit _ (by omega), hexVal_hexDigit _ (by omega),
    hexVal_hexDigit _ (by omega), hexVal_hexDigit _ (by omega)]
  dsimp only
  rw [show ((u / 4096 % 16 * 16 + u / 256 % 16) * 16 + u / 16 % 16) * 16 + u % 16 = u by omega]

theorem parseUEscape_single (v : Nat) (hvalid : v.isValidChar) (hlt : v < 0x10000)
    (bs : List Char) :
    parseUEscape (hex4 v ++ bs) = some (some (Char.ofNat v), bs) := by
  have hsur : ¬ (0xD800 ≤ v ∧ v < 0xDC00) := by
    rcases hvalid with h | ⟨h1, h2⟩ <;> omega
  unfold parseUEscape
  rw [parseHex4_hex4 v hlt]
  try dsimp only
  rw [if_neg hsur, mkChar?_valid v hvalid]
  rfl

theorem parseUEscape_pair (hi lo v : Nat) (hhi1 : 0xD800 ≤ hi) (hhi2 : hi < 0xDC00)
    (hlo1 : 0xDC00 ≤ lo) (hlo2 : lo < 0xE000)
    (hv : v = 0x10000 + (hi - 0xD800) * 1024 + (lo - 0xDC00)) (bs : List Char) :
    parseUEscape (hex4 hi ++ ('\\' :: 'u' :: (hex4 lo ++ bs))) =
      some (some (Char.ofNat v), bs) := by
  unfold parseUEscape
  rw [parseHex4_hex4 hi (by omega)]
  try dsimp only
  rw [if_pos (And.intro hhi1 hhi2)]
  try dsimp only
  simp only [Char.reduceEq, reduceIte]
  rw [parseHex4_hex4 lo (by omega)]
  try dsimp only
  rw [if_pos (And.intro hlo1 hlo2)]
  rw [← hv]
  rw [mkChar?_valid v (Or.inr ⟨by omega, by omega⟩)]
  rfl

theorem parseStrStep_u (v : Nat) (hvalid : v.isValidChar) (hlt : v < 0x10000) (bs : List Char) :
    parseStrStep (('\\' :: 'u' :: hex4 v) ++ bs) = some (some (Char.ofNat v), bs) := by
  simp only [List.cons_append]
  unfold parseStrStep
  dsimp only
  simp only [Char.reduceEq, reduceIte]
  exact parseUEscape_single v hvalid hlt bs

theorem parseStrStep_u_pair (hi lo v : Nat) (hhi1 : 0xD800 ≤ hi) (hhi2 : hi < 0xDC00)
    (hlo1 : 0xDC00 ≤ lo) (hlo2 : lo < 0xE000)
    (hv : v = 0x10000 + (hi - 0xD800) * 1024 + (lo - 0xDC00)) (bs : List Char) :
    parseStrStep (('\\' :: 'u' :: hex4 hi) ++ (('\\' :: 'u' :: hex4 lo) ++ bs)) =
      some (some (Char.ofNat v), bs) := by
  simp only [List.cons_append, List.append_assoc]
  unfold parseStrStep
  dsimp only
  simp only [Char.reduceEq, reduceIte]
  exact parseUEscape_pair hi lo v hhi1 hhi2 hlo1 hlo2 hv bs

theorem parseStrStep_escapeChar (c : Char) (bs : List Char) :
    parseStrStep (jsonEscapeChar c ++ bs) = some (some c, bs) := by
  by_cases h1 : c = '"'
  · subst h1; rfl
  by_cases h2 : c = '\\'
  · subst h2; rfl
  by_cases h3 : c = '\x08'
  · subst h3; rfl
  by_cases h4 : c = '\x0c'
  · subst h4; rfl
  by_cases h5 : c = '\n'
  · subst h5; rfl
  by_cases h6 : c = '\r'
  · subst h6; rfl
  by_cases h7 : c = '\t'
  · subst h7; rfl
  by_cases hA : 0x20 ≤ c.toNat ∧ c.toNat ≤ 0x7E
  · have he : jsonEscapeChar c = [c] := by
      unfold jsonEscapeChar
      rw [if_neg h1, if_neg h2, if_neg h3, if_neg h4, if_neg h5, if_neg h6, if_neg h7, if_pos hA]
    rw [he, List.cons_append, List.nil_append]
    unfold parseStrStep
    dsimp only
    rw [if_neg h1, if_neg h2, if_neg (show ¬ c.toNat < 0x20 by omega)]
  · by_cases hB : c.toNat < 0x10000
    · have he : jsonEscapeChar c = '\\' :: 'u' :: hex4 c.toNat := by
        unfold jsonEscapeChar
        rw [if_neg h1, if_neg h2, if_neg h3, if_neg h4, if_neg h5, if_neg h6, if_neg h7,
          if_neg hA, if_pos hB]
      rw [he, parseStrStep_u c.toNat c.valid hB, Char.ofNat_toNat]
    · have he : jsonEscapeChar c =
          ('\\' :: 'u' :: hex4 (0xD800 + (c.toNat - 0x10000) / 1024)) ++
            ('\\' :: 'u' :: hex4 (0xDC00 + (c.toNat - 0x10000) % 1024)) := by
        unfold jsonEscapeChar
        rw [if_neg h1, if_neg h2, if_neg h3, if_neg h4, if_neg h5, if_neg h6, if_neg h7,
          if_neg hA, if_neg hB]
      have hlt : c.toNat < 0x110000 := by
        rcases char_valid_ranges c with h | ⟨_, h⟩ <;> omega
      have hge : 0x10000 ≤ c.toNat := by omega
      rw [he, List.append_assoc,
        parseStrStep_u_pair (0xD800 + (c.toNat - 0x10000) / 1024)
          (0xDC00 + (c.toNat - 0x10000) % 1024) c.toNat (by omega) (by omega) (by omega)
          (by omega) (by omega) bs,
        Char.ofNat_toNat]

theorem jsonEscapeChar_length_pos (c : Char) : 0 < (jsonEscapeChar c).length := by
  unfold jsonEscapeChar
  repeat' split
  all_goals simp [hex4]

theorem parseStrLoop_encode (l : List Char) :
    ∀ (fuel : Nat) (bs : List Char), (l.flatMap jsonEscapeChar).length + 1 ≤ fuel →
      parseStrLoop fuel (l.flatMap jsonEscapeChar ++ ('"' :: bs)) = some (l, bs) := by
  induction l with
  | nil =>
    intro fuel bs hfuel
    cases fuel with
    | zero => omega
    | succ f => rw [List.flatMap_nil, List.nil_append, parseStrLoop, parseStrStep_quote]
  | cons c t ih =>
    intro fuel bs hfuel
    rw [List.flatMap_cons] at hfuel ⊢
    rw [List.length_append] at hfuel
    have hpos := jsonEscapeChar_length_pos c
    cases fuel with
    | zero => omega
    | succ f =>
      rw [List.append_assoc, parseStrLoop, parseStrStep_escapeChar]
      dsimp only
      rw [ih f bs (by omega)]
      rfl

theorem parseStrChars_quote (l bs : List Char) :
    parseStrChars (l.flatMap jsonEscapeChar ++ ('"' :: bs)) = some (l, bs) := by
  unfold parseStrChars
  apply parseStrLoop_encode
  rw [List.length_append]
  simp

/-! ## Round-trip lemmas: JSON objects -/

theorem parseMember_comma (k v : List Char) (bs : List Char) :
    parseMember (jsonQuoteChars k ++ (':' :: (jsonQuoteChars v ++ (',' :: bs)))) =
      some ((k, v), (true, bs)) := by
  unfold jsonQuoteChars
  simp only [List.cons_append, List.append_assoc, List.singleton_append, List.nil_append]
  unfold parseMember
  dsimp only
  try simp only [Char.reduceEq, reduceIte]
  rw [parseStrChars_quote]
  try dsimp only
  try simp only [Char.reduceEq, reduceIte]
  rw [parseStrChars_quote]
  try dsimp only
  try simp only [Char.reduceEq, reduceIte]

theorem parseMember_brace (k v : List Char) (bs : List Char) :
    parseMember (jsonQuoteChars k ++ (':' :: (jsonQuoteChars v ++ ('\x7d' :: bs)))) =
      some ((k, v), (false, bs)) := by
  unfold jsonQuoteChars
  simp only [List.cons_append, List.append_assoc, List.singleton_append, List.nil_append]
  unfold parseMember
  dsimp only
  try simp only [Char.reduceEq, reduceIte]
  rw [parseStrChars_quote]
  try dsimp only
  try simp only [Char.reduceEq, reduceIte]
  rw [parseStrChars_quote]
  try dsimp only
  try simp only [Char.reduceEq, reduceIte]

theorem parseMembers_encode (kvs : List (List Char × List Char)) :
    ∀ (fuel : Nat) (bs : List Char), kvs ≠ [] → kvs.length ≤ fuel →
      parseMembers fuel (jsonMembersChars kvs ++ ('\x7d' :: bs)) = some (kvs, bs) := by
  induction kvs with
  | nil => intro _ _ h _; exact absurd rfl h
  | cons kv rest ih =>
    intro fuel bs _ hlen
    cases fuel with
    | zero => simp at hlen
    | succ f =>
      cases rest with
      | nil =>
        rw [show jsonMembersChars [kv] = jsonQuoteChars kv.1 ++ (':' :: jsonQuoteChars kv.2)
          from rfl]
        simp only [List.cons_append, List.append_assoc]
        rw [parseMembers, parseMember_brace]
      | cons r rs =>
        rw [show jsonMembersChars (kv :: r :: rs) = jsonQuoteChars kv.1 ++
          (':' :: (jsonQuoteChars kv.2 ++ (',' :: jsonMembersChars (r :: rs)))) from rfl]
        simp only [List.cons_append, List.append_assoc]
        rw [parseMembers, parseMember_comma]
        dsimp only
        rw [ih f bs (by simp) (by simp only [List.length_cons] at hlen ⊢; omega)]
        rfl

theorem two_le_jsonQuoteChars_length (l : List Char) : 2 ≤ (jsonQuoteChars l).length := by
  unfold jsonQuoteChars
  simp

theorem le_length_jsonMembersChars :
    ∀ kvs : List (List Char × List Char), kvs.length ≤ (jsonMembersChars kvs).length := by
  intro kvs
  induction kvs with
  | nil => simp [jsonMembersChars]
  | cons kv rest ih =>
    cases rest with
    | nil =>
      have := two_le_jsonQuoteChars_length kv.1
      rw [show jsonMembersChars [kv] = jsonQuoteChars kv.1 ++ (':' :: jsonQuoteChars kv.2)
        from rfl]
      simp only [List.length_append, List.length_cons, List.length_singleton, List.length_nil]
      omega
    | cons r rs =>
      have := two_le_jsonQuoteChars_length kv.1
      rw [show jsonMembersChars (kv :: r :: rs) = jsonQuoteChars kv.1 ++
        (':' :: (jsonQuoteChars kv.2 ++ (',' :: jsonMembersChars (r :: rs)))) from rfl]
      simp only [List.length_append, List.length_cons, List.length_nil] at ih ⊢
      omega

theorem parseJson_dumps (kvs : List (List Char × List Char)) (hne : kvs ≠ []) :
    parseJsonObjChars (json_dumpsChars kvs) =
      some (kvs.map fun kv => (String.mk kv.1, String.mk kv.2)) := by
  obtain ⟨kv, rest, rfl⟩ : ∃ kv rest, kvs = kv :: rest := by
    cases kvs with
    | nil => exact absurd rfl hne
    | cons a b => exact ⟨a, b, rfl⟩
  obtain ⟨M, hM⟩ : ∃ M, jsonMembersChars (kv :: rest) = '"' :: M := by
    cases rest <;> exact ⟨_, rfl⟩
  have hfuel : (kv :: rest).length ≤ ('"' :: (M ++ ['\x7d'])).length := by
    have h1 := le_length_jsonMembersChars (kv :: rest)
    rw [hM] at h1
    simp only [List.length_cons, List.length_append, List.length_singleton] at h1 ⊢
    omega
  unfold json_dumpsChars
  rw [hM]
  simp only [List.cons_append]
  unfold parseJsonObjChars
  dsimp only
  simp only [Char.reduceEq, reduceIte]
  rw [show ('"' :: (M ++ ['\x7d'])) = jsonMembersChars (kv :: rest) ++ ('\x7d' :: []) from by
    rw [hM, List.cons_append]]
  rw [parseMembers_encode (kv :: rest) _ [] (by simp) (by
    rw [show jsonMembersChars (kv :: rest) ++ ('\x7d' :: []) = '"' :: (M ++ ['\x7d']) from by
      rw [hM, List.cons_append]]
    exact hfuel)]
  rfl

/-! ## Decoding an issued token -/

theorem mk_data (s : String) : String.mk s.data = s := rfl

theorem utf8EncodeChar_lt_256 (c : Char) : ∀ b ∈ utf8EncodeChar c, b < 256 := by
  intro b hb
  unfold utf8EncodeChar at hb
  dsimp only at hb
  split at hb
  · simp only [List.mem_singleton] at hb
    omega
  · split at hb
    · simp only [List.mem_cons, List.not_mem_nil, or_false] at hb
      rcases hb with rfl | rfl <;> omega
    · split at hb
      · simp only [List.mem_cons, List.not_mem_nil, or_false] at hb
        rcases hb with rfl | rfl | rfl <;> omega
      · have hv : c.toNat < 0x110000 := by
          rcases char_valid_ranges c with h | ⟨_, h⟩ <;> omega
        simp only [List.mem_cons, List.not_mem_nil, or_false] at hb
        rcases hb with rfl | rfl | rfl | rfl <;> omega

theorem takeWhile_append_dot (A B : List Char) (h : ∀ c ∈ A, c ≠ '.') :
    (A ++ '.' :: B).takeWhile (fun c => c ≠ '.') = A := by
  induction A with
  | nil =>
    rw [List.nil_append, List.takeWhile_cons]
    simp
  | cons a t ih =>
    rw [List.cons_append, List.takeWhile_cons]
    have ha : a ≠ '.' := h a (by simp)
    rw [if_pos (show decide (a ≠ '.') = true by simp [ha])]
    rw [ih (fun c hc => h c (by simp [hc]))]

theorem decode_payload_token (email name : String) (issOrd expOrd : Nat) (sgn : List Nat) :
    decode_payload ("FINCH-" ++ b64urlEncode (payloadBytes email name issOrd expOrd) ++ "." ++
        b64urlEncode sgn) =
      some (claimFields email name issOrd expOrd) := by
  have hdata : ("FINCH-" ++ b64urlEncode (payloadBytes email name issOrd expOrd) ++ "." ++
      b64urlEncode sgn).data =
      'F' :: 'I' :: 'N' :: 'C' :: 'H' :: '-' ::
        (b64urlEncodeChars (payloadBytes email name issOrd expOrd) ++
          ('.' :: b64urlEncodeChars sgn)) := by
    simp only [String.data_append, b64urlEncode]
    simp [List.append_assoc]
  unfold decode_payload
  rw [hdata]
  try dsimp only
  try simp only [Char.reduceEq, reduceIte]
  rw [takeWhile_append_dot _ _ (b64urlEncodeChars_ne_dot _)]
  rw [b64url_decode_encode _ (by
    intro b hb
    unfold payloadBytes utf8Encode at hb
    rcases List.mem_flatMap.mp hb with ⟨c, _, hbc⟩
    exact utf8EncodeChar_lt_256 c b hbc)]
  dsimp only
  rw [show payloadBytes email name issOrd expOrd =
      (payloadChars email name issOrd expOrd).flatMap utf8EncodeChar from rfl]
  rw [utf8_decode_encode]
  dsimp only
  unfold payloadChars
  rw [parseJson_dumps _ (by simp)]
  rfl

/-! ## The payload is pure ASCII -/

theorem hexDigit_ascii_fin : ∀ d : Fin 16, (hexDigit d.val).toNat < 0x80 := by decide

theorem hexDigit_ascii (d : Nat) (h : d < 16) : (hexDigit d).toNat < 0x80 :=
  hexDigit_ascii_fin ⟨d, h⟩

theorem hex4_ascii (v : Nat) : ∀ c ∈ hex4 v, c.toNat < 0x80 := by
  intro c hc
  unfold hex4 at hc
  simp only [List.mem_cons, List.not_mem_nil, or_false] at hc
  rcases hc with rfl | rfl | rfl | rfl <;> exact hexDigit_ascii _ (by omega)

theorem jsonEscapeChar_ascii (c : Char) : ∀ d ∈ jsonEscapeChar c, d.toNat < 0x80 := by
  intro d hd
  unfold jsonEscapeChar at hd
  split at hd
  · simp only [List.mem_cons, List.not_mem_nil, or_false] at hd
    rcases hd with rfl | rfl <;> decide
  · split at hd
    · simp only [List.mem_cons, List.not_mem_nil, or_false] at hd
      rcases hd with rfl | rfl <;> decide
    · split at hd
      · simp only [List.mem_cons, List.not_mem_nil, or_false] at hd
        rcases hd with rfl | rfl <;> decide
      · split at hd
        · simp only [List.mem_cons, List.not_mem_nil, or_false] at hd
          rcases hd with rfl | rfl <;> decide
        · split at hd
          · simp only [List.mem_cons, List.not_mem_nil, or_false] at hd
            rcases hd with rfl | rfl <;> decide
          · split at hd
            · simp only [List.mem_cons, List.not_mem_nil, or_false] at hd
              rcases hd with rfl | rfl <;> decide
            · split at hd
              · simp only [List.mem_cons, List.not_mem_nil, or_false] at hd
                rcases hd with rfl | rfl <;> decide
              · rename_i h1 h2 h3 h4 h5 h6 h7
                split at hd
                · rename_i hA
                  simp only [List.mem_singleton] at hd
                  subst hd
                  omega
                · split at hd
                  · simp only [List.mem_cons] at hd
                    rcases hd with rfl | rfl | hd
                    · decide
                    · decide
                    · exact hex4_ascii _ d hd
                  · simp only [List.mem_append, List.mem_cons] at hd
                    rcases hd with (rfl | rfl | hd) | (rfl | rfl | hd)
                    · decide
                    · decide
                    · exact hex4_ascii _ d hd
                    · decide
                    · decide
                    · exact hex4_ascii _ d hd

theorem jsonQuoteChars_ascii (l : List Char) : ∀ c ∈ jsonQuoteChars l, c.toNat < 0x80 := by
  intro c hc
  unfold jsonQuoteChars at hc
  simp only [List.mem_cons, List.mem_append, List.mem_singleton, List.not_mem_nil,
    or_false] at hc
  rcases hc with rfl | hc | rfl
  · decide
  · rcases List.mem_flatMap.mp hc with ⟨d, _, hcd⟩
    exact jsonEscapeChar_ascii d c hcd
  · decide

theorem jsonMembersChars_ascii :
    ∀ kvs : List (List Char × List Char), ∀ c ∈ jsonMembersChars kvs, c.toNat < 0x80
  | [], _, hc => by simp [jsonMembersChars] at hc
  | [kv], c, hc => by
    rw [show jsonMembersChars [kv] = jsonQuoteChars kv.1 ++ (':' :: jsonQuoteChars kv.2)
      from rfl] at hc
    simp only [List.mem_append, List.mem_cons] at hc
    rcases hc with hc | rfl | hc
    · exact jsonQuoteChars_ascii _ c hc
    · decide
    · exact jsonQuoteChars_ascii _ c hc
  | kv :: r :: rs, c, hc => by
    rw [show jsonMembersChars (kv :: r :: rs) = jsonQuoteChars kv.1 ++
      (':' :: (jsonQuoteChars kv.2 ++ (',' :: jsonMembersChars (r :: rs)))) from rfl] at hc
    simp only [List.mem_append, List.mem_cons] at hc
    rcases hc with hc | rfl | hc | rfl | hc
    · exact jsonQuoteChars_ascii _ c hc
    · decide
    · exact jsonQuoteChars_ascii _ c hc
    · decide
    · exact jsonMembersChars_ascii (r :: rs) c hc

theorem json_dumpsChars_ascii (kvs : List (List Char × List Char)) :
    ∀ c ∈ json_dumpsChars kvs, c.toNat < 0x80 := by
  intro c hc
  unfold json_dumpsChars at hc
  simp only [List.mem_cons, List.mem_append, List.mem_singleton, List.not_mem_nil,
    or_false] at hc
  rcases hc with rfl | hc | rfl
  · decide
  · exact jsonMembersChars_ascii kvs c hc
  · decide

theorem payloadBytes_ascii (email name : String) (issOrd expOrd : Nat) :
    ∀ b ∈ payloadBytes email name issOrd expOrd, b < 0x80 := by
  intro b hb
  unfold payloadBytes utf8Encode at hb
  rcases List.mem_flatMap.mp hb with ⟨c, hcmem, hbc⟩
  have hascii : c.toNat < 0x80 := json_dumpsChars_ascii _ c hcmem
  rw [show utf8EncodeChar c = [c.toNat] from by unfold utf8EncodeChar; rw [if_pos hascii]] at hbc
  simp only [List.mem_singleton] at hbc
  omega

/-! ## Unfolding and inversion lemmas for `issue_key` and `main` -/

theorem issue_key_ok {SK PK : Type} (S : SigScheme SK PK) (email name : String) (years : Int)
    (pem : List Nat) (today : Nat) (sk : SK) (hk : S.loadKey pem = .ok sk)
    (h1 : 1 ≤ expOrdinal today years) (h2 : expOrdinal today years ≤ (maxOrdinal : Int)) :
    issue_key S email name years pem today =
      .ok ("FINCH-" ++
        b64urlEncode (payloadBytes email name today (expOrdinal today years).toNat) ++ "." ++
        b64urlEncode (S.sign sk (payloadBytes email name today (expOrdinal today years).toNat))) := by
  unfold issue_key
  rw [hk]
  dsimp only
  rw [if_pos (And.intro h1 h2)]

theorem issue_key_err_key {SK PK : Type} (S : SigScheme SK PK) (email name : String)
    (years : Int) (pem : List Nat) (today : Nat) (e : String)
    (hk : S.loadKey pem = .error e) :
    issue_key S email name years pem today = .error e := by
  unfold issue_key
  rw [hk]

theorem issue_key_err_range {SK PK : Type} (S : SigScheme SK PK) (email name : String)
    (years : Int) (pem : List Nat) (today : Nat) (sk : SK) (hk : S.loadKey pem = .ok sk)
    (hout : ¬ (1 ≤ expOrdinal today years ∧ expOrdinal today years ≤ (maxOrdinal : Int))) :
    issue_key S email name years pem today = .error "date value out of range" := by
  unfold issue_key
  rw [hk]
  dsimp only
  rw [if_neg hout]

theorem issue_key_ok_inv {SK PK : Type} (S : SigScheme SK PK) (email name : String)
    (years : Int) (pem : List Nat) (today : Nat) (t : String)
    (h : issue_key S email name years pem today = .ok t) :
    ∃ sk, S.loadKey pem = .ok sk ∧ 1 ≤ expOrdinal today years ∧
      expOrdinal today years ≤ (maxOrdinal : Int) ∧
      t = "FINCH-" ++
        b64urlEncode (payloadBytes email name today (expOrdinal today years).toNat) ++ "." ++
        b64urlEncode (S.sign sk (payloadBytes email name today (expOrdinal today years).toNat)) := by
  cases hl : S.loadKey pem with
  | error e => rw [issue_key_err_key S email name years pem today e hl] at h; exact absurd h (by simp)
  | ok sk =>
    by_cases hr : 1 ≤ expOrdinal today years ∧ expOrdinal today years ≤ (maxOrdinal : Int)
    · rw [issue_key_ok S email name years pem today sk hl hr.1 hr.2] at h
      exact ⟨sk, by simp [hl], hr.1, hr.2, by simpa using h.symm⟩
    · rw [issue_key_err_range S email name years pem today sk hl hr] at h
      exact absurd h (by simp)

theorem toyScheme_correct : toyScheme.Correct := by
  intro sk m
  simp [toyScheme, SigScheme.Correct]

theorem toyScheme_strict : toyScheme.StrictVerify := by
  intro sk m sg h
  simpa [toyScheme] using h

theorem toyScheme_inj : toyScheme.SignInjective := by
  intro sk m m' h
  simpa [toyScheme] using h

/-! ## Case lemmas for `main` -/

theorem main_err_key {SK PK : Type} (env : Env SK PK) (args : Args) (e : String)
    (h : keySource env args = .error e) :
    main env args = ⟨1, [], ["error: " ++ e]⟩ := by
  unfold main
  rw [h]

theorem main_no_crypto {SK PK : Type} (env : Env SK PK) (args : Args) (pem : List Nat)
    (h : keySource env args = .ok pem) (hc : env.cryptoAvailable = false) :
    main env args =
      ⟨1, [], ["error: cryptography package not installed. Run: pip install cryptography"]⟩ := by
  unfold main
  rw [h]
  dsimp only
  rw [hc]
  rw [if_neg (by simp)]

theorem main_sign_fail {SK PK : Type} (env : Env SK PK) (args : Args) (pem : List Nat)
    (e : String) (h : keySource env args = .ok pem) (hc : env.cryptoAvailable = true)
    (hik : issue_key env.scheme args.email args.name args.years pem env.todayOrd = .error e) :
    main env args = ⟨1, [], ["error: failed to sign key: " ++ e]⟩ := by
  unfold main
  rw [h]
  dsimp only
  rw [hc]
  rw [if_pos rfl, hik]

theorem main_success {SK PK : Type} (env : Env SK PK) (args : Args) (pem : List Nat)
    (t : String) (h : keySource env args = .ok pem) (hc : env.cryptoAvailable = true)
    (hik : issue_key env.scheme args.email args.name args.years pem env.todayOrd = .ok t) :
    main env args = ⟨0, [t],
      ["\n# Licensee:  " ++ args.name ++ " <" ++ args.email ++ ">",
       "# Expires:   " ++ isoformatOfOrdinal (expOrdinal env.todayOrd args.years).toNat,
       "# Key from:  " ++
         (match args.key with
          | some p => if p = "" then "1Password" else p
          | none => "1Password")]⟩ := by
  unfold main
  rw [h]
  dsimp only
  rw [hc]
  rw [if_pos rfl, hik]

theorem keySource_file {SK PK : Type} (env : Env SK PK) (args : Args) (path : String)
    (h : args.key = some path) (hne : path ≠ "") :
    keySource env args = load_private_key_from_file env.fs env.home path := by
  unfold keySource
  rw [h]
  dsimp only
  rw [if_neg hne]

theorem load_file_missing (fs : String → Option (List Nat)) (home path : String)
    (h : fs (expanduser home path) = none) :
    load_private_key_from_file fs home path =
      .error ("Key file not found: " ++ expanduser home path) := by
  unfold load_private_key_from_file
  dsimp only
  rw [h]

theorem set_ne_of_ne (l : List Nat) (i : Fin l.length) (b : Nat) (hb : b ≠ l.get i) :
    l.set i b ≠ l := by
  intro hcontra
  apply hb
  have h1 : (l.set i b)[i.val] = b := List.getElem_set_self (by simp [i.isLt])
  simp only [hcontra] at h1
  rw [List.get_eq_getElem]
  exact h1.symm

/-! ## The claims -/

/-- Claim C1, amended: for every email, name, years and valid private
key such that the expiry date stays within `datetime.date`'s range,
`issue_key` returns exactly the string `FINCH-` followed by the
unpadded base64url encoding of the UTF-8 bytes of the payload JSON
(fields serialized in the order `sub`, `name`, `tier`, `iss`, `exp`,
with separators `","` and `":"` and no inserted whitespace, `tier`
fixed to `"commercial"`), then a `.`, then the unpadded base64url
encoding of the raw signature bytes. (As stated, over every integer
`years`, the claim fails: out of range the date arithmetic raises
`OverflowError` and no token is returned — see the counterexample.) -/
theorem C1_token_format {SK PK : Type} (S : SigScheme SK PK) (email name : String)
    (years : Int) (pem : List Nat) (today : Nat) (sk : SK)
    (hk : S.loadKey pem = .ok sk)
    (h1 : 1 ≤ expOrdinal today years) (h2 : expOrdinal today years ≤ (maxOrdinal : Int)) :
    issue_key S email name years pem today =
      .ok ("FINCH-" ++
        b64urlEncode (utf8Encode (json_dumps
          [("sub", email), ("name", name), ("tier", "commercial"),
           ("iss", isoformatOfOrdinal today),
           ("exp", isoformatOfOrdinal (expOrdinal today years).toNat)])) ++ "." ++
        b64urlEncode (S.sign sk (utf8Encode (json_dumps
          [("sub", email), ("name", name), ("tier", "commercial"),
           ("iss", isoformatOfOrdinal today),
           ("exp", isoformatOfOrdinal (expOrdinal today years).toNat)])))) := by
  rw [issue_key_ok S email name years pem today sk hk h1 h2]
  rfl

/-- Claim C1, counterexample to the universal form: with a valid key
and `years = -10000` on 2024-01-01, `issue_key` raises
`OverflowError("result out of range")` instead of returning a
`FINCH-` token. -/
theorem C1_counterexample :
    issue_key toyScheme "a@b.c" "Jane" (-10000) [7] 738886 =
      .error "date value out of range" := rfl

/-- Claim C1 witness. -/
theorem C1_witness :
    issue_key toyScheme "a@b.c" "Jane" 1 [7] 738886 =
      .ok ("FINCH-" ++
        b64urlEncode (utf8Encode (json_dumps
          [("sub", "a@b.c"), ("name", "Jane"), ("tier", "commercial"),
           ("iss", isoformatOfOrdinal 738886),
           ("exp", isoformatOfOrdinal (expOrdinal 738886 1).toNat)])) ++ "." ++
        b64urlEncode (toyScheme.sign [7] (utf8Encode (json_dumps
          [("sub", "a@b.c"), ("name", "Jane"), ("tier", "commercial"),
           ("iss", isoformatOfOrdinal 738886),
           ("exp", isoformatOfOrdinal (expOrdinal 738886 1).toNat)])))) :=
  C1_token_format toyScheme "a@b.c" "Jane" 1 [7] 738886 [7] rfl (by decide) (by decide)

/-- Claim C2: whenever `issue_key` issues a payload, its `exp` date is
the `iss` date plus exactly `365 * years` days — a flat day-count
offset with no leap-year or calendar adjustment — and `years = 0` is
accepted rather than rejected, yielding a token whose `exp` field
equals its `iss` field. -/
theorem C2_expiry_arithmetic {SK PK : Type} (S : SigScheme SK PK) (email name : String)
    (pem : List Nat) (today : Nat) (sk : SK) (hk : S.loadKey pem = .ok sk)
    (h1 : 1 ≤ today) (h2 : today ≤ maxOrdinal) :
    (∀ (years : Int) (t : String), issue_key S email name years pem today = .ok t →
      decode_payload t = some (claimFields email name today (expOrdinal today years).toNat) ∧
      ((expOrdinal today years).toNat : Int) = (today : Int) + 365 * years) ∧
    (issue_key S email name 0 pem today =
      .ok ("FINCH-" ++ b64urlEncode (payloadBytes email name today today) ++ "." ++
        b64urlEncode (S.sign sk (payloadBytes email name today today))) ∧
     decode_payload ("FINCH-" ++ b64urlEncode (payloadBytes email name today today) ++ "." ++
        b64urlEncode (S.sign sk (payloadBytes email name today today))) =
       some [("sub", email), ("name", name), ("tier", "commercial"),
         ("iss", isoformatOfOrdinal today), ("exp", isoformatOfOrdinal today)]) := by
  constructor
  · intro years t hok
    obtain ⟨sk', _, hr1, _, rfl⟩ := issue_key_ok_inv S email name years pem today t hok
    refine ⟨decode_payload_token email name today (expOrdinal today years).toNat _, ?_⟩
    unfold expOrdinal at hr1 ⊢
    omega
  · have h0 : (expOrdinal today 0).toNat = today := by unfold expOrdinal; omega
    have hik := issue_key_ok S email name 0 pem today sk hk
      (by unfold expOrdinal; omega) (by unfold expOrdinal; omega)
    rw [h0] at hik
    exact ⟨hik, decode_payload_token email name today today _⟩

/-- Claim C2 witness. -/
theorem C2_witness :
    issue_key toyScheme "a@b.c" "Jane" 0 [7] 738886 =
      .ok ("FINCH-" ++ b64urlEncode (payloadBytes "a@b.c" "Jane" 738886 738886) ++ "." ++
        b64urlEncode (toyScheme.sign [7] (payloadBytes "a@b.c" "Jane" 738886 738886))) :=
  (C2_expiry_arithmetic toyScheme "a@b.c" "Jane" [7] 738886 [7] rfl (by decide) (by decide)).2.1

/-- Claim C3: the token on standard output is a pure, deterministic
function of (subject, name, years, issuance date, private key): two
runs that agree on those five inputs — whatever else differs in their
environments (filesystem contents, key origin, user home) — print the
same bytes to standard output. -/
theorem C3_determinism {SK PK : Type} (S : SigScheme SK PK) (env1 env2 : Env SK PK)
    (args1 args2 : Args) (pem : List Nat)
    (hs1 : env1.scheme = S) (hs2 : env2.scheme = S)
    (he : args1.email = args2.email) (hn : args1.name = args2.name)
    (hy : args1.years = args2.years) (hd : env1.todayOrd = env2.todayOrd)
    (hk1 : keySource env1 args1 = .ok pem) (hk2 : keySource env2 args2 = .ok pem)
    (hc1 : env1.cryptoAvailable = true) (hc2 : env2.cryptoAvailable = true) :
    (main env1 args1).stdout = (main env2 args2).stdout := by
  cases hik : issue_key S args2.email args2.name args2.years pem env2.todayOrd with
  | error e =>
    rw [main_sign_fail env1 args1 pem e hk1 hc1 (by rw [hs1, he, hn, hy, hd]; exact hik),
      main_sign_fail env2 args2 pem e hk2 hc2 (by rw [hs2]; exact hik)]
  | ok t =>
    rw [main_success env1 args1 pem t hk1 hc1 (by rw [hs1, he, hn, hy, hd]; exact hik),
      main_success env2 args2 pem t hk2 hc2 (by rw [hs2]; exact hik)]

/-- Claim C3 witness: a file-sourced run and a secret-store-sourced run
with the same key bytes and date print identical standard output. -/
theorem C3_witness : (main envA argsA).stdout = (main envB argsB).stdout :=
  C3_determinism toyScheme envA envB argsA argsB [7] rfl rfl rfl rfl rfl rfl
    (by rfl) (by rfl) rfl rfl

/-- Claim C4: base64url-decoding the segment of an issued token between
`FINCH-` and the `.` and parsing it as JSON yields a mapping with
exactly the five fields `sub`, `name`, `tier`, `iss`, `exp`, where
`sub` and `name` equal the email and name supplied, `tier` is
`"commercial"`, and `iss`/`exp` are the issuance and expiry dates. -/
theorem C4_payload_roundtrip {SK PK : Type} (S : SigScheme SK PK) (email name : String)
    (years : Int) (pem : List Nat) (today : Nat) (t : String)
    (hok : issue_key S email name years pem today = .ok t) :
    decode_payload t = some [("sub", email), ("name", name), ("tier", "commercial"),
      ("iss", isoformatOfOrdinal today),
      ("exp", isoformatOfOrdinal (expOrdinal today years).toNat)] := by
  obtain ⟨sk, _, _, _, rfl⟩ := issue_key_ok_inv S email name years pem today t hok
  exact decode_payload_token email name today (expOrdinal today years).toNat _

/-- Claim C4 witness. -/
theorem C4_witness :
    decode_payload ("FINCH-" ++
        b64urlEncode (payloadBytes "a@b.c" "Jane" 738886 (expOrdinal 738886 1).toNat) ++ "." ++
        b64urlEncode (toyScheme.sign [7]
          (payloadBytes "a@b.c" "Jane" 738886 (expOrdinal 738886 1).toNat))) =
      some [("sub", "a@b.c"), ("name", "Jane"), ("tier", "commercial"),
        ("iss", isoformatOfOrdinal 738886),
        ("exp", isoformatOfOrdinal (expOrdinal 738886 1).toNat)] :=
  C4_payload_roundtrip toyScheme "a@b.c" "Jane" 1 [7] 738886 _
    (issue_key_ok toyScheme "a@b.c" "Jane" 1 [7] 738886 [7] rfl (by decide) (by decide))

/-- Claim C5: for a Signer meeting the spec's contract (signatures
verify; for a fixed key and message exactly the produced signature is
accepted; signatures are injective in the message), verification with
the corresponding public key succeeds on the (signature, payload) pair
of any issued token, and fails whenever any single byte of the payload
or of the signature is altered. -/
theorem C5_signature_verification {SK PK : Type} (S : SigScheme SK PK)
    (hC : S.Correct) (hStr : S.StrictVerify) (hInj : S.SignInjective)
    (email name : String) (years : Int) (pem : List Nat) (today : Nat) (sk : SK) (t : String)
    (hk : S.loadKey pem = .ok sk)
    (hok : issue_key S email name years pem today = .ok t) :
    t = "FINCH-" ++
        b64urlEncode (payloadBytes email name today (expOrdinal today years).toNat) ++ "." ++
        b64urlEncode (S.sign sk (payloadBytes email name today (expOrdinal today years).toNat)) ∧
      S.verify (S.pub sk)
        (S.sign sk (payloadBytes email name today (expOrdinal today years).toNat))
        (payloadBytes email name today (expOrdinal today years).toNat) = true ∧
      (∀ (i : Fin (payloadBytes email name today (expOrdinal today years).toNat).length)
          (b : Nat), b ≠ (payloadBytes email name today (expOrdinal today years).toNat).get i →
        S.verify (S.pub sk)
          (S.sign sk (payloadBytes email name today (expOrdinal today years).toNat))
          ((payloadBytes email name today (expOrdinal today years).toNat).set i b) = false) ∧
      (∀ (i : Fin (S.sign sk
            (payloadBytes email name today (expOrdinal today years).toNat)).length) (b : Nat),
          b ≠ (S.sign sk (payloadBytes email name today (expOrdinal today years).toNat)).get i →
        S.verify (S.pub sk)
          ((S.sign sk (payloadBytes email name today (expOrdinal today years).toNat)).set i b)
          (payloadBytes email name today (expOrdinal today years).toNat) = false) := by
  obtain ⟨sk2, hk2, _, _, ht⟩ := issue_key_ok_inv S email name years pem today t hok
  have hsk : sk = sk2 := by
    rw [hk] at hk2
    injection hk2 with h
  subst hsk
  refine ⟨ht, ?_, ?_, ?_⟩
  all_goals generalize payloadBytes email name today (expOrdinal today years).toNat = p at ht ⊢
  · exact hC sk p
  · intro i b hb
    cases hv : S.verify (S.pub sk) (S.sign sk p) (p.set i b) with
    | false => rfl
    | true =>
      have hsg : S.sign sk p = S.sign sk (p.set i b) := hStr sk (p.set i b) (S.sign sk p) hv
      have hmm : p = p.set i b := hInj sk p (p.set i b) hsg
      exact absurd hmm.symm (set_ne_of_ne p i b hb)
  · intro i b hb
    cases hv : S.verify (S.pub sk) ((S.sign sk p).set i b) p with
    | false => rfl
    | true =>
      have hsg : (S.sign sk p).set i b = S.sign sk p := hStr sk p _ hv
      exact absurd hsg (set_ne_of_ne _ i b hb)

/-- Claim C5 witness: verification succeeds on a concretely issued
token's signature and payload. -/
theorem C5_witness :
    toyScheme.verify (toyScheme.pub [7])
      (toyScheme.sign [7] (payloadBytes "a@b.c" "Jane" 738886 (expOrdinal 738886 1).toNat))
      (payloadBytes "a@b.c" "Jane" 738886 (expOrdinal 738886 1).toNat) = true :=
  (C5_signature_verification toyScheme toyScheme_correct toyScheme_strict toyScheme_inj
    "a@b.c" "Jane" 1 [7] 738886 [7] _ rfl
    (issue_key_ok toyScheme "a@b.c" "Jane" 1 [7] 738886 [7] rfl (by decide) (by decide))).2.1

/-- Claim C6: standard output carries the token if and only if the run
fully succeeded; on any modeled failure (key-source error, missing
cryptography library, or signing failure) the process writes a single
`error: <message>` line to standard error, writes nothing to standard
output, and exits with status 1. -/
theorem C6_output_discipline {SK PK : Type} (env : Env SK PK) (args : Args) :
    ((main env args).exitCode = 0 →
      ∃ pem t, keySource env args = .ok pem ∧ env.cryptoAvailable = true ∧
        issue_key env.scheme args.email args.name args.years pem env.todayOrd = .ok t ∧
        (main env args).stdout = [t]) ∧
    ((main env args).exitCode ≠ 0 → (main env args).stdout = [] ∧
      (main env args).exitCode = 1 ∧ ∃ m, (main env args).stderr = ["error: " ++ m]) := by
  cases hks : keySource env args with
  | error e =>
    rw [main_err_key env args e hks]
    exact ⟨fun h => absurd h Nat.one_ne_zero, fun _ => ⟨rfl, rfl, e, rfl⟩⟩
  | ok pem =>
    cases hc : env.cryptoAvailable with
    | false =>
      rw [main_no_crypto env args pem hks hc]
      exact ⟨fun h => absurd h Nat.one_ne_zero, fun _ =>
        ⟨rfl, rfl, "cryptography package not installed. Run: pip install cryptography", rfl⟩⟩
    | true =>
      cases hik : issue_key env.scheme args.email args.name args.years pem env.todayOrd with
      | error e2 =>
        rw [main_sign_fail env args pem e2 hks hc hik]
        refine ⟨fun h => absurd h Nat.one_ne_zero,
          fun _ => ⟨rfl, rfl, "failed to sign key: " ++ e2, ?_⟩⟩
        rw [← String.append_assoc]
        rfl
      | ok t =>
        rw [main_success env args pem t hks hc hik]
        exact ⟨fun _ => ⟨pem, t, rfl, rfl, hik, rfl⟩, fun h => absurd rfl h⟩

/-- Claim C6 witness: a failing run (secret-store tool missing) prints
nothing to standard output, one `error:` line to standard error, and
exits 1. -/
theorem C6_witness :
    (main envFail argsB).stdout = [] ∧ (main envFail argsB).exitCode = 1 ∧
      ∃ m, (main envFail argsB).stderr = ["error: " ++ m] :=
  (C6_output_discipline envFail argsB).2 (by decide)

/-- Claim C7, amended: for every non-empty `--key` path that does not
exist on the filesystem (after user-home expansion of `~`), the
process exits with status 1, reports `Key file not found: <path>` on
standard error, and prints no token to standard output. (As stated —
over every supplied path — the claim fails: the source tests
`if args.key:` by Python truthiness, so `--key ""`, a supplied path
that never exists, is routed to the 1Password source instead of the
file loader and can succeed with a token on standard output — see the
counterexample.) -/
theorem C7_missing_key_file {SK PK : Type} (env : Env SK PK) (args : Args) (path : String)
    (hkey : args.key = some path) (hne : path ≠ "")
    (hmiss : env.fs (expanduser env.home path) = none) :
    main env args =
      ⟨1, [], ["error: " ++ ("Key file not found: " ++ expanduser env.home path)]⟩ :=
  main_err_key env args _
    ((keySource_file env args path hkey hne).trans
      (load_file_missing env.fs env.home path hmiss))

/-- Claim C7, counterexample to the claim as stated: `--key ""`
supplies a path that exists on no filesystem, yet the run does not
report `Key file not found` — the empty string is falsy, the key is
fetched from 1Password, and the process prints a token to standard
output and exits 0. -/
theorem C7_counterexample :
    argsEmptyKey.key = some "" ∧
    envB.fs (expanduser envB.home "") = none ∧
    (main envB argsEmptyKey).exitCode = 0 ∧
    (main envB argsEmptyKey).stdout ≠ [] :=
  ⟨rfl, rfl, rfl, by decide⟩

/-- Claim C7 witness. -/
theorem C7_witness :
    main envA ⟨"a@b.c", "Jane", 1, some "~/nokey.pem"⟩ =
      ⟨1, [], ["error: " ++ ("Key file not found: " ++ expanduser "/home/u" "~/nokey.pem")]⟩ :=
  C7_missing_key_file envA ⟨"a@b.c", "Jane", 1, some "~/nokey.pem"⟩ "~/nokey.pem" rfl
    (by decide) (by rfl)

/-- Claim C8: key bytes that fail to load as a PEM private key — and
any other error raised inside `issue_key` — make the process exit with
status 1 and report `error: failed to sign key: <cause>` carrying the
underlying cause text. -/
theorem C8_signing_failure {SK PK : Type} (env : Env SK PK) (args : Args) (pem : List Nat)
    (hpem : keySource env args = .ok pem) (hcrypto : env.cryptoAvailable = true) :
    (∀ cause, env.scheme.loadKey pem = .error cause →
      main env args = ⟨1, [], ["error: failed to sign key: " ++ cause]⟩) ∧
    (∀ cause, issue_key env.scheme args.email args.name args.years pem env.todayOrd =
        .error cause →
      main env args = ⟨1, [], ["error: failed to sign key: " ++ cause]⟩) := by
  constructor
  · intro cause hload
    exact main_sign_fail env args pem cause hpem hcrypto
      (issue_key_err_key env.scheme args.email args.name args.years pem env.todayOrd cause hload)
  · intro cause hik
    exact main_sign_fail env args pem cause hpem hcrypto hik

/-- Claim C8 witness: an unloadable (empty) PEM file produces the
`failed to sign key` message and exit status 1. -/
theorem C8_witness :
    main envBad argsBad =
      ⟨1, [], ["error: failed to sign key: " ++ "Unable to load PEM file"]⟩ :=
  (C8_signing_failure envBad argsBad [] (by rfl) rfl).1 "Unable to load PEM file" (by rfl)

/-- Claim C9, amended: `issue_key` performs no validation on `years`:
every integer `years` whose expiry ordinal stays within
`datetime.date`'s range is accepted, and for negative such `years` the
issued token's `exp` date is strictly earlier than its `iss` date, by
exactly `365 * |years|` days. (As stated — for every integer `years`,
including arbitrarily negative ones — the claim fails: once
`iss + 365 * years` leaves the representable date range, the date
arithmetic raises `OverflowError` and the run fails with the generic
signing-failure message — see the counterexample.) -/
theorem C9_negative_years {SK PK : Type} (S : SigScheme SK PK) (email name : String)
    (years : Int) (pem : List Nat) (today : Nat) (sk : SK)
    (hk : S.loadKey pem = .ok sk) (hneg : years < 0)
    (hin : 1 ≤ expOrdinal today years) (htoday : today ≤ maxOrdinal) :
    ∃ t, issue_key S email name years pem today = .ok t ∧
      decode_payload t = some (claimFields email name today (expOrdinal today years).toNat) ∧
      (expOrdinal today years).toNat < today ∧
      (today : Int) - ((expOrdinal today years).toNat : Int) = 365 * (-years) := by
  have h2 : expOrdinal today years ≤ (maxOrdinal : Int) := by
    unfold expOrdinal
    omega
  refine ⟨_, issue_key_ok S email name years pem today sk hk hin h2,
    decode_payload_token email name today (expOrdinal today years).toNat _, ?_, ?_⟩
  · unfold expOrdinal at hin ⊢
    omega
  · unfold expOrdinal at hin ⊢
    omega

/-- Claim C9, counterexample to the claim as stated: with a valid key
and `years = -2100` on 2024-01-01, `issue_key` does not succeed — the
date arithmetic raises `OverflowError("result out of range")`. -/
theorem C9_counterexample :
    issue_key toyScheme "buyer@example.com" "Jane Doe" (-2100) [7] 738886 =
      .error "date value out of range" := rfl

/-- Claim C9 witness: `years = -1` is accepted and the expiry precedes
the issuance date by 365 days. -/
theorem C9_witness :
    ∃ t, issue_key toyScheme "a@b.c" "Jane" (-1) [7] 738886 = .ok t ∧
      decode_payload t =
        some (claimFields "a@b.c" "Jane" 738886 (expOrdinal 738886 (-1)).toNat) ∧
      (expOrdinal 738886 (-1)).toNat < 738886 ∧
      ((738886 : Nat) : Int) - ((expOrdinal 738886 (-1)).toNat : Int) = 365 * (-(-1)) :=
  C9_negative_years toyScheme "a@b.c" "Jane" (-1) [7] 738886 [7] rfl (by decide) (by decide)
    (by decide)

/-- Claim C10: the signed payload bytes of every issued token are pure
ASCII — `json.dumps`'s default escaping turns every character outside
`0x20..0x7E` (in particular all non-ASCII characters of the email and
name) into `\uXXXX` escape sequences, so the byte string that is
signed and embedded never contains a byte at or above `0x80`. -/
theorem C10_ascii_payload {SK PK : Type} (S : SigScheme SK PK) (email name : String)
    (years : Int) (pem : List Nat) (today : Nat) (t : String)
    (hok : issue_key S email name years pem today = .ok t) :
    (∃ sk, S.loadKey pem = .ok sk ∧
      t = "FINCH-" ++
        b64urlEncode (payloadBytes email name today (expOrdinal today years).toNat) ++ "." ++
        b64urlEncode (S.sign sk (payloadBytes email name today (expOrdinal today years).toNat))) ∧
    (payloadBytes email name today (expOrdinal today years).toNat).all
      (fun b => decide (b < 0x80)) = true := by
  obtain ⟨sk, hk, _, _, ht⟩ := issue_key_ok_inv S email name years pem today t hok
  refine ⟨⟨sk, hk, ht⟩, ?_⟩
  rw [List.all_eq_true]
  intro b hb
  simpa using payloadBytes_ascii email name today (expOrdinal today years).toNat b hb

/-- Claim C10 witness, with a non-ASCII name. -/
theorem C10_witness :
    (payloadBytes "a@b.c" "Jörg ✓" 738886 (expOrdinal 738886 1).toNat).all
      (fun b => decide (b < 0x80)) = true :=
  (C10_ascii_payload toyScheme "a@b.c" "Jörg ✓" 1 [7] 738886 _
    (issue_key_ok toyScheme "a@b.c" "Jörg ✓" 1 [7] 738886 [7] rfl (by decide) (by decide))).2

end Finch
